import Mathlib

/-!
Verification of the chat service (server `src/bin/server.rs`,
client `client/src/main.rs`).  Lines of protocol text are modelled as
`List Char`; connections as the list of characters written to them so far.
-/

set_option autoImplicit false

namespace ChatService

/-- Characters of a string literal, used to write concrete protocol text. -/
def str (s : String) : List Char := s.data

/-- The separator that `read_message` splits an incoming line on:
the two characters of the Rust pattern in `message.split(": ")`. -/
def sepChars : List Char := [':', ' ']

/-- `Message` from `src/bin/server.rs`: the sending user and the content. -/
structure Message where
  username : List Char
  message : List Char
deriving DecidableEq

/-- The `io::ErrorKind` values the reap loop in `receive_messages`
distinguishes; `otherKind` stands for any kind outside the named arms,
identified by its display text (the `{error}` in the catch-all arm). -/
inductive ErrorKind where
  | brokenPipe
  | invalidData
  | timedOut
  | interrupted
  | unsupported
  | outOfMemory
  | other
  | otherKind (displayed : List Char)
deriving DecidableEq

/-- `MessageResult` from `src/bin/server.rs`. -/
inductive MessageResult where
  | NothingReceived
  | NoUsername
  | NoMessage (username : List Char)
  | Message (message : ChatService.Message)
  | Error (kind : ErrorKind)
deriving DecidableEq

/-- Rust `str::split(": ")` on character lists: scan left to right and cut
at each leftmost, non-overlapping occurrence of the separator.  The result
always has at least one section. -/
def splitCS : List Char → List (List Char)
  | [] => [[]]
  | [c] => [[c]]
  | c1 :: c2 :: rest =>
    if c1 = ':' ∧ c2 = ' ' then
      [] :: splitCS rest
    else
      match splitCS (c2 :: rest) with
      | [] => [[c1]]
      | s :: ss => (c1 :: s) :: ss

/-- Rust `[&str]::join(": ")` on character lists, as used for the content
in `read_message`. -/
def joinCS : List (List Char) → List Char
  | [] => []
  | [s] => s
  | s :: s2 :: ss => s ++ sepChars ++ joinCS (s2 :: ss)

/-- Whether a line contains an occurrence of the separator `": "`. -/
def hasSep : List Char → Bool
  | [] => false
  | [_] => false
  | c1 :: c2 :: rest => (c1 == ':' && c2 == ' ') || hasSep (c2 :: rest)

/-- The parsing part of `read_message` (`src/bin/server.rs`), applied to a
line already read: split on `": "`, the first section is the username, the
remaining sections re-joined with `": "` are the content.  Returns the
`MessageResult` together with the diagnostic written to the connection in
the no-username branch, if any. -/
def parseLine (line : List Char) : MessageResult × Option (List Char) :=
  match splitCS line with
  | [] => (MessageResult.NoUsername, some (str "Received an empty message!"))
  | username :: rest =>
    let content := joinCS rest
    if content = [] then (MessageResult.NoMessage username, none)
    else (MessageResult.Message ⟨username, content⟩, none)

/-- The outcome of `next_line` in `read_message`: a line, end of stream, or
an I/O failure. -/
inductive LineRead where
  | ok (line : List Char)
  | eof
  | fail (kind : ErrorKind)
deriving DecidableEq

/-- `read_message` from `src/bin/server.rs`: `Ok(Some(line))` is parsed,
`Ok(None)` is `NothingReceived`, `Err(e)` is `Error(e.kind())`. -/
def readMessage : LineRead → MessageResult × Option (List Char)
  | LineRead.ok line => parseLine line
  | LineRead.eof => (MessageResult.NothingReceived, none)
  | LineRead.fail k => (MessageResult.Error k, none)

/-- The per-message rendering in `send_messages`: the requester sees their
own messages as `you: content`; every other message is rendered through the
`Display` instance as `username: content`. -/
def renderLine (username : List Char) (m : Message) : List Char :=
  if m.username = username then str "you: " ++ m.message
  else m.username ++ sepChars ++ m.message

/-- Rust `Vec::join("\n")` on character lists. -/
def joinNL : List (List Char) → List Char
  | [] => []
  | [s] => s
  | s :: s2 :: ss => s ++ '\n' :: joinNL (s2 :: ss)

/-- The response string built in `send_messages` (`src/bin/server.rs`): one
rendered line per stored message, joined with a newline. -/
def composeResponse (messages : List Message) (username : List Char) : List Char :=
  joinNL (messages.map (renderLine username))

/-- Modelled from the spec, §4.3 Response Composer: one line per stored
message, newline-joined with no trailing newline; the requester sees their
own messages as `you: content` and all others as `username: content`. -/
def specLine (requester : List Char) (m : Message) : List Char :=
  if m.username = requester then str "you: " ++ m.message
  else m.username ++ str ": " ++ m.message

/-- Modelled from the spec, §4.3 Response Composer: the newline-joined,
no-trailing-newline rendering of a snapshot for a requester. -/
def composeResponseSpec : List Message → List Char → List Char
  | [], _ => []
  | [m], requester => specLine requester m
  | m :: m2 :: rest, requester =>
    specLine requester m ++ '\n' :: composeResponseSpec (m2 :: rest) requester

/-- `MAX_MESSAGES` from `src/bin/server.rs`. -/
def maxMessages : Nat := 100

/-- The overflow loop in `main` of `src/bin/server.rs`:
`while messages.len() > MAX_MESSAGES { messages.remove(0); }`. -/
def evictOverflow (l : List Message) : List Message :=
  if h : l.length > maxMessages then evictOverflow l.tail else l
termination_by l.length
decreasing_by
  simp only [List.length_tail]
  simp only [maxMessages, gt_iff_lt] at h
  omega

/-- A handler task as the reap loop sees it: still running, or finished
with its `MessageResult`. -/
inductive Task where
  | pending
  | done (outcome : MessageResult)
deriving DecidableEq

/-- Whether `is_finished` is false for the task. -/
def Task.isPending : Task → Bool
  | Task.pending => true
  | Task.done _ => false

/-- The fixed per-kind log text of the error arms in `receive_messages`
(`src/bin/server.rs`). -/
def errorLogMessage : ErrorKind → List Char
  | ErrorKind.brokenPipe => str "A pipe closed unexpectedly"
  | ErrorKind.invalidData => str "Received invalid data"
  | ErrorKind.timedOut => str "Request timed out"
  | ErrorKind.interrupted => str "Receiving data was interrupted"
  | ErrorKind.unsupported => str "Receiving data over internet is not supported"
  | ErrorKind.outOfMemory => str "Request used too much memory"
  | ErrorKind.other => str "Unexpected error occured"
  | ErrorKind.otherKind displayed => str "Unhandled error occured: " ++ displayed

/-- How one reaped outcome updates the store and the log in
`receive_messages`: a `Message` is appended to the store, an `Error` is
logged through the per-kind table, everything else is discarded. -/
def applyOutcome (msgs : List Message) (log : List (List Char)) :
    MessageResult → List Message × List (List Char)
  | MessageResult.Error k => (msgs, log ++ [errorLogMessage k])
  | MessageResult.Message m => (msgs ++ [m], log)
  | MessageResult.NothingReceived => (msgs, log)
  | MessageResult.NoUsername => (msgs, log)
  | MessageResult.NoMessage _ => (msgs, log)

/-- `receive_messages` from `src/bin/server.rs`: scan the task list in
order; each finished task is removed and its outcome applied, each
unfinished task stays.  Returns the remaining tasks, the store and the
log. -/
def receiveMessages : List Task → List Message → List (List Char) →
    List Task × List Message × List (List Char)
  | [], msgs, log => ([], msgs, log)
  | Task.pending :: rest, msgs, log =>
    let r := receiveMessages rest msgs log
    (Task.pending :: r.1, r.2)
  | Task.done outcome :: rest, msgs, log =>
    let ml := applyOutcome msgs log outcome
    receiveMessages rest ml.1 ml.2

/-- The messages one reap pass appends to the store, in scan order. -/
def reapedMessages (tasks : List Task) : List Message :=
  tasks.filterMap fun t =>
    match t with
    | Task.done (MessageResult.Message m) => some m
    | _ => none

/-- The error log lines one reap pass emits, in scan order. -/
def reapedErrors (tasks : List Task) : List (List Char) :=
  tasks.filterMap fun t =>
    match t with
    | Task.done (MessageResult.Error k) => some (errorLogMessage k)
    | _ => none

/-- `Client` from `client/src/main.rs`; an open connection is modelled by
the characters written to it so far. -/
structure Client where
  username : List Char
  server : List Char
  connection : Option (List Char)
deriving DecidableEq

/-- `Client::open_connection`: a fresh connection with nothing written. -/
def Client.openConnection (c : Client) : Client :=
  { c with connection := some [] }

/-- `Client::send_message` from `client/src/main.rs`: open a connection if
none is open, then write one line through
`writeln!(connection, "{}: {message}", self.username)`. -/
def Client.sendMessage (c : Client) (message : List Char) : Client :=
  let c2 := if c.connection.isNone then c.openConnection else c
  match c2.connection with
  | some written =>
    { c2 with connection := some (written ++ c2.username ++ sepChars ++ message ++ ['\n']) }
  | none => c2

/-- Rust `str::trim` on character lists, over the whitespace characters a
read input line can contain. -/
def trimChars (l : List Char) : List Char :=
  ((l.dropWhile Char.isWhitespace).reverse.dropWhile Char.isWhitespace).reverse

/-- One send step of the client `main` loop in `client/src/main.rs`: the
raw input line is trimmed and handed to `send_message`. -/
def sendInput (c : Client) (raw : List Char) : Client :=
  c.sendMessage (trimChars raw)

/-! ### Lemmas about the separator split -/

/-- `split` always yields at least one section. -/
theorem splitCS_ne_nil : ∀ l : List Char, splitCS l ≠ []
  | [] => by simp [splitCS]
  | [c] => by simp [splitCS]
  | c1 :: c2 :: rest => by
    simp only [splitCS]
    split
    · simp
    · split
      · simp
      · simp

/-- Re-joining the sections with the separator recovers the line. -/
theorem joinCS_splitCS : ∀ l : List Char, joinCS (splitCS l) = l
  | [] => rfl
  | [c] => rfl
  | c1 :: c2 :: rest => by
    have ih := joinCS_splitCS (c2 :: rest)
    have ih2 := joinCS_splitCS rest
    simp only [splitCS]
    split
    · rename_i hc
      obtain ⟨h1, h2⟩ := hc
      subst h1
      subst h2
      cases hs : splitCS rest with
      | nil => exact absurd hs (splitCS_ne_nil rest)
      | cons s ss =>
        rw [hs] at ih2
        simp [joinCS, sepChars, ih2]
    · cases hs : splitCS (c2 :: rest) with
      | nil => exact absurd hs (splitCS_ne_nil _)
      | cons s ss =>
        rw [hs] at ih
        cases ss with
        | nil =>
          simp only [joinCS] at ih ⊢
          simp [ih]
        | cons s2 ss2 =>
          simp only [joinCS] at ih ⊢
          simp [← ih]

/-- A line without the separator is a single section. -/
theorem splitCS_of_not_hasSep : ∀ l : List Char, hasSep l = false → splitCS l = [l]
  | [], _ => rfl
  | [c], _ => rfl
  | c1 :: c2 :: rest, h => by
    simp only [hasSep, Bool.or_eq_false_iff, Bool.and_eq_false_iff, beq_eq_false_iff_ne] at h
    obtain ⟨h1, h2⟩ := h
    have ihs := splitCS_of_not_hasSep (c2 :: rest) h2
    simp only [splitCS]
    rw [if_neg ?hneg]
    case hneg =>
      rintro ⟨e1, e2⟩
      rcases h1 with hne | hne
      · exact hne e1
      · exact hne e2
    rw [ihs]

/-- Splitting `u ++ ": " ++ c` when `u` is separator-free cuts exactly at
the appended separator. -/
theorem splitCS_append_sep :
    ∀ u : List Char, hasSep u = false →
      ∀ c : List Char, splitCS (u ++ sepChars ++ c) = u :: splitCS c
  | [], _, c => by
    show splitCS (':' :: (' ' :: c)) = [] :: splitCS c
    simp only [splitCS]
    simp
  | [d], _, c => by
    have hne : ¬(d = ':' ∧ ':' = ' ') := by
      rintro ⟨-, e⟩
      exact absurd e (by decide)
    show splitCS (d :: ':' :: (' ' :: c)) = [d] :: splitCS c
    simp only [splitCS]
    rw [if_neg hne]
    simp
  | d :: e :: u2, h, c => by
    simp only [hasSep, Bool.or_eq_false_iff, Bool.and_eq_false_iff, beq_eq_false_iff_ne] at h
    obtain ⟨h1, h2⟩ := h
    have ih : splitCS (e :: (u2 ++ sepChars ++ c)) = (e :: u2) :: splitCS c :=
      splitCS_append_sep (e :: u2) h2 c
    have hne : ¬(d = ':' ∧ e = ' ') := by
      rintro ⟨e1, e2⟩
      rcases h1 with hne | hne
      · exact hne e1
      · exact hne e2
    show splitCS (d :: e :: (u2 ++ sepChars ++ c)) = (d :: e :: u2) :: splitCS c
    simp only [splitCS]
    rw [if_neg hne]
    rw [ih]

/-- Parsing a line made of a separator-free username, the separator and an
arbitrary content. -/
theorem parseLine_append (u c : List Char) (hu : hasSep u = false) :
    parseLine (u ++ sepChars ++ c) =
      if c = [] then (MessageResult.NoMessage u, none)
      else (MessageResult.Message ⟨u, c⟩, none) := by
  unfold parseLine
  rw [splitCS_append_sep u hu c]
  simp only [joinCS_splitCS c]

/-! ### Lemmas about eviction -/

/-- The overflow loop drops exactly the oldest entries beyond capacity. -/
theorem evictOverflow_eq_drop (l : List Message) :
    evictOverflow l = l.drop (l.length - maxMessages) := by
  unfold evictOverflow
  split
  · rename_i h
    rw [evictOverflow_eq_drop l.tail]
    cases l with
    | nil => simp [maxMessages] at h
    | cons a t =>
      simp only [List.tail_cons, List.length_cons]
      have he : t.length + 1 - maxMessages = (t.length - maxMessages) + 1 := by
        simp only [maxMessages, List.length_cons, gt_iff_lt] at h ⊢
        omega
      rw [he]
      rfl
  · rename_i h
    have he : l.length - maxMessages = 0 := by
      simp only [maxMessages, gt_iff_lt, not_lt] at h ⊢
      omega
    simp [he]
termination_by l.length
decreasing_by
  simp only [List.length_tail]
  rename_i h
  simp only [maxMessages, gt_iff_lt] at h
  omega

/-! ### Lemmas about the reap pass -/

/-- One reap pass keeps exactly the unfinished tasks, appends exactly the
reaped message outcomes and logs exactly the reaped errors, in order. -/
theorem receiveMessages_eq :
    ∀ (tasks : List Task) (msgs : List Message) (log : List (List Char)),
      receiveMessages tasks msgs log =
        (tasks.filter Task.isPending, msgs ++ reapedMessages tasks, log ++ reapedErrors tasks)
  | [], msgs, log => by
    simp [receiveMessages, reapedMessages, reapedErrors]
  | Task.pending :: rest, msgs, log => by
    have ih := receiveMessages_eq rest msgs log
    simp [receiveMessages, ih, reapedMessages, reapedErrors, Task.isPending, List.filter_cons]
  | Task.done outcome :: rest, msgs, log => by
    cases outcome with
    | Message m =>
      have ih := receiveMessages_eq rest (msgs ++ [m]) log
      simp [receiveMessages, applyOutcome, ih, reapedMessages, reapedErrors,
        Task.isPending, List.filter_cons, List.filterMap_cons]
    | Error k =>
      have ih := receiveMessages_eq rest msgs (log ++ [errorLogMessage k])
      simp [receiveMessages, applyOutcome, ih, reapedMessages, reapedErrors,
        Task.isPending, List.filter_cons, List.filterMap_cons]
    | NothingReceived =>
      have ih := receiveMessages_eq rest msgs log
      simp [receiveMessages, applyOutcome, ih, reapedMessages, reapedErrors,
        Task.isPending, List.filter_cons, List.filterMap_cons]
    | NoUsername =>
      have ih := receiveMessages_eq rest msgs log
      simp [receiveMessages, applyOutcome, ih, reapedMessages, reapedErrors,
        Task.isPending, List.filter_cons, List.filterMap_cons]
    | NoMessage u =>
      have ih := receiveMessages_eq rest msgs log
      simp [receiveMessages, applyOutcome, ih, reapedMessages, reapedErrors,
        Task.isPending, List.filter_cons, List.filterMap_cons]

/-! ### Lemmas about the response composer -/

/-- The per-message rendering of the code agrees with the spec rendering. -/
theorem renderLine_eq_specLine (u : List Char) (m : Message) :
    renderLine u m = specLine u m := by
  unfold renderLine specLine
  have he : sepChars = str ": " := by decide
  rw [he]

/-- The response built by `send_messages` is the spec composition. -/
theorem composeResponse_eq_spec :
    ∀ (msgs : List Message) (u : List Char), composeResponse msgs u = composeResponseSpec msgs u
  | [], u => rfl
  | [m], u => by
    simp [composeResponse, composeResponseSpec, joinNL, renderLine_eq_specLine]
  | m :: m2 :: rest, u => by
    have ih := composeResponse_eq_spec (m2 :: rest) u
    simp only [composeResponse, List.map_cons] at ih ⊢
    simp only [joinNL, composeResponseSpec, renderLine_eq_specLine]
    rw [renderLine_eq_specLine] at ih
    rw [ih]

/-! ### The claims -/

/-- C1: whenever the overflow eviction of the server main loop runs, the
resulting store has at most 100 entries, the surviving entries form a
suffix of the store in their original relative order (entries are removed
from the front, oldest first), and the result is exactly the store with
its oldest overflow dropped — for every store contents, hence after every
sequence of appends. -/
theorem c1_eviction_bounds_store (l : List Message) :
    (evictOverflow l).length ≤ maxMessages ∧
    (∃ dropped, dropped ++ evictOverflow l = l) ∧
    evictOverflow l = l.drop (l.length - maxMessages) := by
  refine ⟨?_, ⟨l.take (l.length - maxMessages), ?_⟩, evictOverflow_eq_drop l⟩
  · rw [evictOverflow_eq_drop l]
    rw [List.length_drop]
    omega
  · rw [evictOverflow_eq_drop l]
    exact List.take_append_drop _ l

/-- C2 counterexample: the line `"hello"` contains no separator, yet the
parser returns `NoMessage "hello"` and writes no diagnostic — it does not
return `NoUsername`. -/
theorem c2_counterexample :
    hasSep (str "hello") = false ∧
    parseLine (str "hello") = (MessageResult.NoMessage (str "hello"), none) ∧
    (parseLine (str "hello")).1 ≠ MessageResult.NoUsername := by decide

/-- C2 (amended): for every input line with no occurrence of the separator
`": "`, the parser returns `NoMessage` carrying the whole line as the
username and writes nothing to the connection; the `NoUsername` diagnostic
branch is never taken. -/
theorem c2_no_separator_amended (line : List Char) (h : hasSep line = false) :
    parseLine line = (MessageResult.NoMessage line, none) := by
  unfold parseLine
  rw [splitCS_of_not_hasSep line h]
  simp [joinCS]

/-- Witness for C2 (amended) at the separator-free line `"hi"`. -/
theorem c2_no_separator_amended_witness :
    hasSep (str "hi") = false ∧
    parseLine (str "hi") = (MessageResult.NoMessage (str "hi"), none) :=
  ⟨by decide, c2_no_separator_amended (str "hi") (by decide)⟩

/-- C3: a line `u ++ ": " ++ c` with `u` separator-free parses to
`Message u c` when `c` is non-empty and to `NoMessage u` when `c` is
empty; any further `": "` occurrences inside `c` stay in the content
verbatim, since the content is exactly `c`. -/
theorem c3_separated_line_parses (u c : List Char) (hu : hasSep u = false) :
    (c ≠ [] → parseLine (u ++ sepChars ++ c) = (MessageResult.Message ⟨u, c⟩, none)) ∧
    (c = [] → parseLine (u ++ sepChars ++ c) = (MessageResult.NoMessage u, none)) := by
  rw [parseLine_append u c hu]
  constructor
  · intro hc
    rw [if_neg hc]
  · intro hc
    rw [if_pos hc]

/-- Witness for C3 at the spec example `"alice: a: b"`: the content keeps
the inner `": "` verbatim. -/
theorem c3_separated_line_parses_witness :
    hasSep (str "alice") = false ∧ str "a: b" ≠ [] ∧
    parseLine (str "alice: a: b") =
      (MessageResult.Message ⟨str "alice", str "a: b"⟩, none) := by
  refine ⟨by decide, by decide, ?_⟩
  have h := (c3_separated_line_parses (str "alice") (str "a: b") (by decide)).1 (by decide)
  have he : str "alice" ++ sepChars ++ str "a: b" = str "alice: a: b" := by decide
  rw [he] at h
  exact h

/-- C4: one reap pass keeps exactly the unfinished tasks in order, appends
exactly the reaped `Message` outcomes to the store in scan order, logs
exactly the reaped `Error` outcomes, and discards everything else; in
particular reaping `[done (Message m), pending, done (Error k)]` appends
exactly `m`, logs the error and leaves `[pending]`. -/
theorem c4_reap_pass :
    (∀ (tasks : List Task) (msgs : List Message) (log : List (List Char)),
      receiveMessages tasks msgs log =
        (tasks.filter Task.isPending, msgs ++ reapedMessages tasks, log ++ reapedErrors tasks)) ∧
    (∀ (m : Message) (k : ErrorKind) (msgs : List Message) (log : List (List Char)),
      receiveMessages
          [Task.done (MessageResult.Message m), Task.pending, Task.done (MessageResult.Error k)]
          msgs log =
        ([Task.pending], msgs ++ [m], log ++ [errorLogMessage k])) := by
  refine ⟨receiveMessages_eq, ?_⟩
  intro m k msgs log
  rw [receiveMessages_eq]
  simp [reapedMessages, reapedErrors, Task.isPending, List.filter_cons, List.filterMap_cons]

/-- C5: the response composer of `send_messages` agrees with the spec
composition (one line per stored message, newline-joined, no trailing
newline, own messages as `you:`), and on the spec example it yields
exactly `"you: hi\nbob: yo"`. -/
theorem c5_compose_response :
    (∀ (msgs : List Message) (u : List Char),
      composeResponse msgs u = composeResponseSpec msgs u) ∧
    composeResponse [⟨str "alice", str "hi"⟩, ⟨str "bob", str "yo"⟩] (str "alice") =
      str "you: hi\nbob: yo" := by
  refine ⟨composeResponse_eq_spec, ?_⟩
  decide

/-- C6 counterexample: a present-but-empty line does not yield
`NothingReceived`; it parses to `NoMessage` with the empty username. -/
theorem c6_counterexample :
    (readMessage (LineRead.ok [])).1 ≠ MessageResult.NothingReceived ∧
    readMessage (LineRead.ok []) = (MessageResult.NoMessage [], none) := by decide

/-- C6 (amended): end-of-stream before any line yields `NothingReceived`;
a present-but-empty line instead parses like any other separator-free
line, to `NoMessage` with the empty username. -/
theorem c6_amended_eof :
    readMessage LineRead.eof = (MessageResult.NothingReceived, none) ∧
    readMessage (LineRead.ok []) = (MessageResult.NoMessage [], none) := by decide

/-- C7: reaping a task that finished with an `Error` outcome logs the
fixed per-kind message, discards the outcome and continues, and the store
it produces is the same as if the error task were absent — no entry is
appended for it and no handler error aborts the pass. -/
theorem c7_error_outcome (k : ErrorKind) (rest : List Task) (msgs : List Message)
    (log : List (List Char)) :
    receiveMessages (Task.done (MessageResult.Error k) :: rest) msgs log =
      receiveMessages rest msgs (log ++ [errorLogMessage k]) ∧
    (receiveMessages (Task.done (MessageResult.Error k) :: rest) msgs log).2.1 =
      (receiveMessages rest msgs log).2.1 := by
  constructor
  · simp [receiveMessages, applyOutcome]
  · rw [receiveMessages_eq, receiveMessages_eq]
    simp [reapedMessages, List.filterMap_cons]

/-- C8: composing a response is deterministic — equal snapshots and equal
requester usernames give identical output, the composer depending on
nothing else. -/
theorem c8_compose_deterministic (msgs1 msgs2 : List Message) (u1 u2 : List Char)
    (hm : msgs1 = msgs2) (hu : u1 = u2) :
    composeResponse msgs1 u1 = composeResponse msgs2 u2 := by
  rw [hm, hu]

/-- Witness for C8 at a concrete snapshot and requester. -/
theorem c8_compose_deterministic_witness :
    composeResponse [⟨str "bob", str "yo"⟩] (str "bob") =
      composeResponse [⟨str "bob", str "yo"⟩] (str "bob") :=
  c8_compose_deterministic _ _ _ _ rfl rfl

/-- C9: sending a message from the client main loop appends to the
connection exactly the one line `username ++ ": " ++ trim(message) ++ "\n"`
(opening the connection lazily when none is open), and that line contains
exactly one newline when username and trimmed message contain none. -/
theorem c9_client_send (c : Client) (raw : List Char)
    (h1 : '\n' ∉ c.username) (h2 : '\n' ∉ trimChars raw) :
    (sendInput c raw).connection =
      some (c.connection.getD [] ++ (c.username ++ sepChars ++ trimChars raw ++ ['\n'])) ∧
    (c.username ++ sepChars ++ trimChars raw ++ ['\n']).count '\n' = 1 := by
  constructor
  · unfold sendInput Client.sendMessage Client.openConnection
    cases hc : c.connection with
    | none => simp [hc]
    | some written => simp [hc]
  · have hu : c.username.count '\n' = 0 := List.count_eq_zero.mpr h1
    have ht : (trimChars raw).count '\n' = 0 := List.count_eq_zero.mpr h2
    simp [List.count_append, hu, ht, sepChars]

/-- Witness for C9: user `"alice"`, raw input `" hi \n"`. -/
theorem c9_client_send_witness :
    ('\n' ∉ str "alice") ∧ ('\n' ∉ trimChars (str " hi \n")) ∧
    (sendInput ⟨str "alice", str "srv", none⟩ (str " hi \n")).connection =
      some ((none : Option (List Char)).getD [] ++
        (str "alice" ++ sepChars ++ trimChars (str " hi \n") ++ ['\n'])) ∧
    (str "alice" ++ sepChars ++ trimChars (str " hi \n") ++ ['\n']).count '\n' = 1 := by
  refine ⟨by decide, by decide, ?_, ?_⟩
  · exact (c9_client_send ⟨str "alice", str "srv", none⟩ (str " hi \n")
      (by decide) (by decide)).1
  · exact (c9_client_send ⟨str "alice", str "srv", none⟩ (str " hi \n")
      (by decide) (by decide)).2

/-- C10: splitting always yields at least one section, so the parser never
returns `NoUsername` and never writes the diagnostic, for any line at all;
a separator-free line — the empty line included — becomes `NoMessage` with
the entire line as the username. -/
theorem c10_no_username_unreachable :
    (∀ line : List Char, splitCS line ≠ []) ∧
    (∀ line : List Char,
      (parseLine line).1 ≠ MessageResult.NoUsername ∧ (parseLine line).2 = none) ∧
    (∀ line : List Char, hasSep line = false →
      parseLine line = (MessageResult.NoMessage line, none)) := by
  refine ⟨splitCS_ne_nil, ?_, ?_⟩
  · intro line
    unfold parseLine
    cases hs : splitCS line with
    | nil => exact absurd hs (splitCS_ne_nil line)
    | cons s ss =>
      constructor
      · split
        · simp_all
        · dsimp only
          split <;> simp
      · split
        · simp_all
        · dsimp only
          split <;> simp
  · intro line h
    unfold parseLine
    rw [splitCS_of_not_hasSep line h]
    simp [joinCS]

/-- Witness for C10 at the empty line. -/
theorem c10_no_username_unreachable_witness :
    splitCS [] ≠ [] ∧
    (parseLine []).1 ≠ MessageResult.NoUsername ∧
    hasSep [] = false ∧
    parseLine [] = (MessageResult.NoMessage [], none) :=
  ⟨c10_no_username_unreachable.1 [], (c10_no_username_unreachable.2.1 []).1, by decide,
   c10_no_username_unreachable.2.2 [] (by decide)⟩

end ChatService
